import Mathlib

/-!
Verification of the 13F scraper's parsing, validation, statistics, quarter
resolution and filing-history classification logic.

The quarter-resolution mapping is translated from `src/sec_client.py`
(`SECClient._has_13f_filing_in_quarter`).  The parsing/validation/
classification helpers (`parser.py`, `utils.py`, `logic.py`) are exercised by
the repository's tests but their module sources are absent from `src/`; those
definitions are modelled from the specification, as marked in their doc
comments.
-/

namespace ThirteenF

/-- Whitespace test for a character (space, tab, CR, LF), used for trimming. -/
def isWS (c : Char) : Bool :=
  c = ' ' || c = '\t' || c = '\n' || c = '\r'

/-- Trim leading and trailing whitespace from a character list. -/
def trimChars (l : List Char) : List Char :=
  ((l.dropWhile isWS).reverse.dropWhile isWS).reverse

/-- Does the list start with the given pattern? -/
def startsWithChars : List Char → List Char → Bool
  | [], _ => true
  | _ :: _, [] => false
  | p :: ps, c :: cs => p = c && startsWithChars ps cs

/-- Does the pattern occur as a contiguous sublist? -/
def containsSub (pat : List Char) : List Char → Bool
  | [] => startsWithChars pat []
  | c :: cs => startsWithChars pat (c :: cs) || containsSub pat cs

/-- Lower-case every character of a list. -/
def lowerChars (l : List Char) : List Char :=
  l.map Char.toLower

/-- Numeric value of a decimal digit character. -/
def charToDigit (c : Char) : Nat :=
  c.toNat - 48

/-- Is the character a decimal digit (codepoint between 48 and 57)? -/
def isDigitB (c : Char) : Bool :=
  decide (48 ≤ c.toNat) && decide (c.toNat ≤ 57)

/-- Value of a non-empty string of digit characters, most significant first. -/
def digitsVal (l : List Char) : Nat :=
  l.foldl (fun acc c => acc * 10 + charToDigit c) 0

/-- Are all characters digits (and the list non-empty)? -/
def allDigits (l : List Char) : Bool :=
  !l.isEmpty && l.all isDigitB

/--
A Python value as it appears in a raw parsed cell: `None`, a string, an
integer, or a float.  Floats are represented exactly as rationals, since the
claims under study concern control flow and filtering, not binary rounding.
-/
inductive PyVal where
  | none : PyVal
  | str : String → PyVal
  | int : Int → PyVal
  | rat : ℚ → PyVal
deriving DecidableEq

/--
Modelled from the spec: numeric coercion used by `utils.safe_int` /
`utils.safe_float` and by the row validator (`parser.py` and `utils.py` are
absent from `src/`).  A string is numeric when it is all digits, optionally
with a single decimal point separating two digit runs; any other value
(including `None` and the empty string) fails to coerce.  Spec §4.5:
"value_usd and shares_or_principal_amount are coerced to numeric types; if
coercion fails the row is dropped."
-/
def parseDecimal (s : String) : Option ℚ :=
  match s.data.splitOn '.' with
  | [w] => if allDigits w then some (mkRat (digitsVal w) 1) else Option.none
  | [w, f] =>
      if allDigits w && allDigits f then
        some (mkRat (digitsVal w * 10 ^ f.length + digitsVal f) (10 ^ f.length))
      else Option.none
  | _ => Option.none

/-- Coerce a raw Python value to a number, if possible. -/
def toNum : PyVal → Option ℚ
  | .none => Option.none
  | .str s => parseDecimal s
  | .int n => some (mkRat n 1)
  | .rat q => some q

/-- Truncation of a rational toward zero, as Python `int(float)` does. -/
def ratTrunc (q : ℚ) : Int :=
  q.num.tdiv q.den

/--
Modelled from the spec: `utils.safe_int` (module absent from `src/`);
behaviour fixed by `TestSafeConversion.test_safe_int`.  Converts to an
integer (truncating fractional values), returning the caller-supplied
default when conversion fails; never raises.
-/
def safe_int (v : PyVal) (d : Int) : Int :=
  match toNum v with
  | some q => ratTrunc q
  | Option.none => d

/--
Modelled from the spec: `utils.safe_float` (module absent from `src/`);
behaviour fixed by `TestSafeConversion.test_safe_float`.  Converts to a
number, returning the caller-supplied default when conversion fails; never
raises.
-/
def safe_float (v : PyVal) (d : ℚ) : ℚ :=
  match toNum v with
  | some q => q
  | Option.none => d

/--
Modelled from the spec: a raw row as emitted by the parsing strategies and
consumed by the validator (`parser.py` is absent from `src/`).  Spec §3 and
§4.2: fields may be absent; numeric fields arrive as raw values (filtering
happens later, in the validator).
-/
structure RawRow where
  cusip : Option String
  issuer_name : Option String
  class_title : Option String
  value_usd : PyVal
  ssh_prnamt : PyVal
  ssh_prnamt_type : Option String
  put_call : Option String
  investment_discretion : Option String
  other_managers : Option String
  voting_authority_sole : PyVal
  voting_authority_shared : PyVal
  voting_authority_none : PyVal
deriving DecidableEq

/--
Modelled from the spec: a canonical Holding of the output table (`parser.py`
is absent from `src/`).  Spec §3: `cusip` and `issuer_name` required
non-empty, `value_usd` a monetary amount, `shares_or_principal_amount` an
integer, voting-authority counts defaulting to 0.
-/
structure Holding where
  cusip : String
  issuer_name : String
  class_title : String
  value_usd : ℚ
  ssh_prnamt : Int
  ssh_prnamt_type : String
  put_call : Option String
  investment_discretion : String
  other_managers : Option String
  voting_authority_sole : Int
  voting_authority_shared : Int
  voting_authority_none : Int
deriving DecidableEq

/--
Modelled from the spec: `ThirteenFParser._is_valid_holding` (`parser.py` is
absent from `src/`; behaviour fixed by `test_is_valid_holding`).  Spec §4.5:
`cusip` and `issuer_name`, after trimming whitespace, must be non-empty.
-/
def is_valid_holding (r : RawRow) : Bool :=
  match r.cusip, r.issuer_name with
  | some c, some n => !(trimChars c.data).isEmpty && !(trimChars n.data).isEmpty
  | _, _ => false

/--
Modelled from the spec: per-row validation and coercion performed by
`ThirteenFParser._clean_dataframe` (`parser.py` is absent from `src/`).
Spec §4.5: rows lacking a trimmed-non-empty `cusip` or `issuer_name` are
dropped; `value_usd` and `shares_or_principal_amount` are coerced to
numeric types and the row is dropped when coercion fails; voting-authority
counts default to 0.  Identity fields pass through verbatim.
-/
def materialize (r : RawRow) : Option Holding :=
  if is_valid_holding r then
    match r.cusip, r.issuer_name, toNum r.value_usd, toNum r.ssh_prnamt with
    | some c, some n, some v, some s =>
        some
          { cusip := c
            issuer_name := n
            class_title := r.class_title.getD ""
            value_usd := v
            ssh_prnamt := ratTrunc s
            ssh_prnamt_type := r.ssh_prnamt_type.getD ""
            put_call := r.put_call
            investment_discretion := r.investment_discretion.getD ""
            other_managers := r.other_managers
            voting_authority_sole := safe_int r.voting_authority_sole 0
            voting_authority_shared := safe_int r.voting_authority_shared 0
            voting_authority_none := safe_int r.voting_authority_none 0 }
    | _, _, _, _ => Option.none
  else Option.none

/--
Modelled from the spec: the validation pass of
`ThirteenFParser._clean_dataframe` over a whole table (`parser.py` is absent
from `src/`).  Spec §4.5: the output contains only rows that passed all
checks, preserving the relative order of surviving rows.
-/
def clean_rows (rows : List RawRow) : List Holding :=
  rows.filterMap materialize

/--
Modelled from the spec: `ThirteenFParser._detect_file_type` (`parser.py` is
absent from `src/`; behaviour fixed by `test_detect_file_type_xml/_txt`).
Spec §4.1: classify as XML when the text, case-insensitively, contains an
XML declaration or the information-table root token; otherwise legacy text.
-/
def detect_file_type (text : String) : String :=
  if containsSub "<?xml".data (lowerChars text.data)
      || containsSub "informationtable".data (lowerChars text.data) then "xml"
  else "txt"

/--
Modelled from the spec: `ThirteenFParser.parse_information_table`
(`parser.py` is absent from `src/`).  The two parsing strategies are taken
as parameters returning `Option` (a Python strategy that raises or finds no
rows is a `none`).  Spec §4.2/§6: the XML strategy is attempted when the
hint or the detector says XML; on its failure the legacy-text strategy is
tried; when both fail the result is the empty table — the function itself
returns a table and never a fault.
-/
def parse_information_table (xmlS textS : String → Option (List RawRow))
    (text hint : String) : List Holding :=
  match (if hint = "xml" ∨ detect_file_type text = "xml" then xmlS text
         else Option.none) with
  | some rows => clean_rows rows
  | Option.none =>
      match textS text with
      | some rows => clean_rows rows
      | Option.none => []

/--
Modelled from the spec: `ThirteenFParser.get_holdings_count` (`parser.py` is
absent from `src/`).  Spec §3: `distinct_holdings_count` = count of unique
`cusip` values (duplicates collapse).
-/
def get_holdings_count (t : List Holding) : Nat :=
  ((t.map fun h => h.cusip).dedup).length

/--
Modelled from the spec: `ThirteenFParser.get_total_value` (`parser.py` is
absent from `src/`).  Spec §3: `total_value_usd` = sum of `value_usd` over
all rows (duplicates counted, not collapsed).
-/
def get_total_value (t : List Holding) : ℚ :=
  (t.map fun h => h.value_usd).sum

/--
Modelled from the spec: `utils.parse_quarter` (`utils.py` is absent from
`src/`; behaviour fixed by `test_parse_quarter_valid/_invalid`).  Spec §6:
the quarter string is four year digits, the literal `Q`, and one digit 1–4;
parsing fails loudly (an error, never a silent default) for anything else.
-/
def parse_quarter (s : String) : Except String (Nat × Nat) :=
  match s.data with
  | [c1, c2, c3, c4, c5, c6] =>
      if (48 ≤ c1.toNat ∧ c1.toNat ≤ 57) ∧ (48 ≤ c2.toNat ∧ c2.toNat ≤ 57)
          ∧ (48 ≤ c3.toNat ∧ c3.toNat ≤ 57) ∧ (48 ≤ c4.toNat ∧ c4.toNat ≤ 57)
          ∧ c5 = 'Q' ∧ (49 ≤ c6.toNat ∧ c6.toNat ≤ 52) then
        .ok (charToDigit c1 * 1000 + charToDigit c2 * 100
              + charToDigit c3 * 10 + charToDigit c4, charToDigit c6)
      else .error "Invalid quarter format"
  | _ => .error "Invalid quarter format"

/-- The decimal digit character for `d ≤ 9`. -/
def digitChar (d : Nat) : Char :=
  match d with
  | 0 => '0' | 1 => '1' | 2 => '2' | 3 => '3' | 4 => '4'
  | 5 => '5' | 6 => '6' | 7 => '7' | 8 => '8' | _ => '9'

/--
Modelled from the spec: `utils.format_quarter` (`utils.py` is absent from
`src/`; behaviour fixed by `test_format_quarter`).  Renders a year below
10000 as four digits followed by `Q` and the quarter digit.
-/
def format_quarter (y n : Nat) : String :=
  String.mk [digitChar (y / 1000 % 10), digitChar (y / 100 % 10),
    digitChar (y / 10 % 10), digitChar (y % 10), 'Q', digitChar n]

/--
The quarter-string grammar exactly as the claim words it: four year digits,
the literal `Q`, and one quarter digit in 1..4 (codepoints 49–52).  Stated
separately from `parse_quarter` so the parser can be compared against it.
-/
def spec_quarter_grammar (s : String) : Prop :=
  ∃ c1 c2 c3 c4 c6, s.data = [c1, c2, c3, c4, 'Q', c6]
    ∧ (48 ≤ c1.toNat ∧ c1.toNat ≤ 57) ∧ (48 ≤ c2.toNat ∧ c2.toNat ≤ 57)
    ∧ (48 ≤ c3.toNat ∧ c3.toNat ≤ 57) ∧ (48 ≤ c4.toNat ∧ c4.toNat ≤ 57)
    ∧ (49 ≤ c6.toNat ∧ c6.toNat ≤ 52)

/-- Is an `Except` result a success? -/
def exceptIsOk {ε α : Type} : Except ε α → Bool
  | .ok _ => true
  | .error _ => false

/--
Quarter resolution for a 13F filing date, translated from
`SECClient._has_13f_filing_in_quarter` (src/sec_client.py lines 499-508,
repeated verbatim in `_get_accession_number_for_quarter` and
`_get_filing_date_for_quarter`): filing month ≤ 3 discloses quarter 4 of the
previous year; ≤ 6 quarter 1; ≤ 9 quarter 2; otherwise quarter 3 of the
filing year.
-/
def filingQuarter (filing_year : Int) (filing_month : Nat) : Int × Nat :=
  if filing_month ≤ 3 then (filing_year - 1, 4)
  else if filing_month ≤ 6 then (filing_year, 1)
  else if filing_month ≤ 9 then (filing_year, 2)
  else (filing_year, 3)

/-- A calendar date (year, month, day). -/
structure FDate where
  year : Int
  month : Nat
  day : Nat
deriving DecidableEq

/-- Date ordering, lexicographic on (year, month, day). -/
def dateLeB (a b : FDate) : Bool :=
  decide (a.year < b.year)
    || (a.year == b.year
        && (decide (a.month < b.month)
            || (a.month == b.month && decide (a.day ≤ b.day))))

/-- Strict date ordering, lexicographic on (year, month, day). -/
def dateLtB (a b : FDate) : Bool :=
  decide (a.year < b.year)
    || (a.year == b.year
        && (decide (a.month < b.month)
            || (a.month == b.month && decide (a.day < b.day))))

/-- A fiscal quarter: a year and a quarter number. -/
structure Quarter where
  year : Int
  q : Nat
deriving DecidableEq

/-- Strict quarter ordering, lexicographic on (year, quarter). -/
def qLtB (a b : Quarter) : Bool :=
  decide (a.year < b.year) || (a.year == b.year && decide (a.q < b.q))

/-- Quarter ordering, lexicographic on (year, quarter). -/
def qLeB (a b : Quarter) : Bool :=
  decide (a.year < b.year) || (a.year == b.year && decide (a.q ≤ b.q))

/-- Quarter equality as a Boolean test. -/
def qEqB (a b : Quarter) : Bool :=
  a.year == b.year && a.q == b.q

/--
One entry of a filer's submission history, as consumed by the classifier:
form type, filing date and accession identifier (spec §3, `FilingRecord`).
-/
structure FilingRecord where
  form_type : String
  filing_date : FDate
  accession_number : String
deriving DecidableEq

/--
Modelled from the spec: the form-type filter of the classifier
(`logic.py` is absent from `src/`; fixed by spec §4.7 step 1 and by
`ThirteenFProcessor._find_target_filings` / `_check_first_time_filer`
tests).  Only the primary holdings form `13F-HR` and its amendment
`13F-HR/A` qualify as disclosures; this matches the filter in
`SECClient._has_13f_filing_in_quarter` (src/sec_client.py line 493).
-/
def qualifies (r : FilingRecord) : Bool :=
  r.form_type == "13F-HR" || r.form_type == "13F-HR/A"

/-- The quarter a filing discloses, via the code's `filingQuarter` mapping. -/
def resolveFiling (r : FilingRecord) : Quarter :=
  ⟨(filingQuarter r.filing_date.year r.filing_date.month).1,
    (filingQuarter r.filing_date.year r.filing_date.month).2⟩

/-- The qualifying (holdings-disclosure) entries of a history. -/
def qualifying (history : List FilingRecord) : List FilingRecord :=
  history.filter fun r => qualifies r

/-- Quarters of qualifying entries resolving strictly earlier than target. -/
def earlier_quarters (history : List FilingRecord) (target : Quarter) :
    List Quarter :=
  ((qualifying history).map resolveFiling).filter fun q => qLtB q target

/-- Qualifying entries resolving exactly to the target quarter. -/
def target_filings (history : List FilingRecord) (target : Quarter) :
    List FilingRecord :=
  (qualifying history).filter fun r => qEqB (resolveFiling r) target

/-- The smaller of two quarters (the first on ties). -/
def minQ (a b : Quarter) : Quarter :=
  if qLtB b a then b else a

/-- The minimum quarter of a list, when the list is non-empty. -/
def min_quarter : List Quarter → Option Quarter
  | [] => Option.none
  | q :: qs => some (qs.foldl minQ q)

/-- The filing with the later date (the first on ties, deterministically). -/
def laterOf (a b : FilingRecord) : FilingRecord :=
  if dateLtB a.filing_date b.filing_date then b else a

/--
Modelled from the spec: `ThirteenFProcessor._get_latest_filing` (`logic.py`
is absent from `src/`; behaviour fixed by `test_get_latest_filing`).  The
entry with the maximum filing date; of equal dates the earliest-listed is
kept, deterministically.
-/
def latest_filing : List FilingRecord → Option FilingRecord
  | [] => Option.none
  | r :: rs => some (rs.foldl laterOf r)

/--
Result of classifying one filer's history against a target quarter
(spec §3, `FilingHistoryClassification`).
-/
structure Classification where
  is_first_time : Bool
  earliest_qualifying_quarter : Option Quarter
  selected_filing : Option FilingRecord
deriving DecidableEq

/--
Modelled from the spec: the filing-history classifier, spec §4.7
(`ThirteenFProcessor._check_first_time_filer` / `_find_target_filings` /
`_get_latest_filing` in `logic.py`, absent from `src/`; behaviour fixed by
`test_check_first_time_filer_*`).  Filters to qualifying forms, resolves
each entry's quarter, picks the latest filing of the target quarter, and is
first-time iff no qualifying entry resolves strictly earlier than target.
-/
def classify_filing_history (history : List FilingRecord) (target : Quarter) :
    Classification :=
  { is_first_time := (earlier_quarters history target).isEmpty
    earliest_qualifying_quarter := min_quarter (earlier_quarters history target)
    selected_filing := latest_filing (target_filings history target) }

/-! ### Order lemmas for quarters and dates -/

theorem qLtB_iff (a b : Quarter) :
    qLtB a b = true ↔ a.year < b.year ∨ (a.year = b.year ∧ a.q < b.q) := by
  cases a
  cases b
  simp [qLtB]

theorem qLeB_iff (a b : Quarter) :
    qLeB a b = true ↔ a.year < b.year ∨ (a.year = b.year ∧ a.q ≤ b.q) := by
  cases a
  cases b
  simp [qLeB]

theorem qEqB_iff (a b : Quarter) : qEqB a b = true ↔ a = b := by
  cases a
  cases b
  simp [qEqB, Quarter.mk.injEq]

theorem qLeB_refl (a : Quarter) : qLeB a a = true := by
  simp [qLeB_iff]

theorem qLeB_trans {a b c : Quarter} (h1 : qLeB a b = true)
    (h2 : qLeB b c = true) : qLeB a c = true := by
  rw [qLeB_iff] at *
  omega

theorem qLeB_of_not_qLtB {a b : Quarter} (h : qLtB b a = false) :
    qLeB a b = true := by
  rw [qLeB_iff]
  rw [← Bool.not_eq_true, qLtB_iff] at h
  omega

theorem qLeB_of_qLtB {a b : Quarter} (h : qLtB a b = true) :
    qLeB a b = true := by
  rw [qLtB_iff] at h
  rw [qLeB_iff]
  omega

theorem qLtB_irrefl (a : Quarter) : qLtB a a = false := by
  rw [← Bool.not_eq_true, qLtB_iff]
  omega

theorem dateLeB_refl (a : FDate) : dateLeB a a = true := by
  cases a
  simp [dateLeB]

theorem dateLeB_trans {a b c : FDate} (h1 : dateLeB a b = true)
    (h2 : dateLeB b c = true) : dateLeB a c = true := by
  cases a
  cases b
  cases c
  simp only [dateLeB] at *
  simp at h1 h2 ⊢
  omega

theorem dateLeB_of_not_dateLtB {a b : FDate} (h : dateLtB b a = false) :
    dateLeB a b = true := by
  cases a
  cases b
  simp only [dateLtB, dateLeB] at *
  simp at h ⊢
  omega

theorem dateLeB_of_dateLtB {a b : FDate} (h : dateLtB a b = true) :
    dateLeB a b = true := by
  cases a
  cases b
  simp only [dateLtB, dateLeB] at *
  simp at h ⊢
  omega

/-! ### Minimum-quarter and latest-filing fold lemmas -/

theorem minQ_eq_or (a b : Quarter) : minQ a b = a ∨ minQ a b = b := by
  unfold minQ
  split
  · right; rfl
  · left; rfl

theorem minQ_le_left (a b : Quarter) : qLeB (minQ a b) a = true := by
  unfold minQ
  split
  · exact qLeB_of_qLtB (by assumption)
  · exact qLeB_refl a

theorem minQ_le_right (a b : Quarter) : qLeB (minQ a b) b = true := by
  unfold minQ
  split
  · exact qLeB_refl b
  · exact qLeB_of_not_qLtB (by simp_all)

theorem foldl_minQ_mem (l : List Quarter) (a : Quarter) :
    l.foldl minQ a = a ∨ l.foldl minQ a ∈ l := by
  induction l generalizing a with
  | nil => left; rfl
  | cons x xs ih =>
    simp only [List.foldl_cons]
    rcases ih (minQ a x) with h | h
    · rcases minQ_eq_or a x with h2 | h2
      · left; rw [h, h2]
      · right; rw [h, h2]; exact List.mem_cons_self x xs
    · right; exact List.mem_cons_of_mem x h

theorem foldl_minQ_le_init (l : List Quarter) (a : Quarter) :
    qLeB (l.foldl minQ a) a = true := by
  induction l generalizing a with
  | nil => exact qLeB_refl a
  | cons x xs ih =>
    simp only [List.foldl_cons]
    exact qLeB_trans (ih (minQ a x)) (minQ_le_left a x)

theorem foldl_minQ_le (l : List Quarter) (a : Quarter) :
    ∀ q ∈ l, qLeB (l.foldl minQ a) q = true := by
  induction l generalizing a with
  | nil => intro q hq; cases hq
  | cons x xs ih =>
    intro q hq
    simp only [List.foldl_cons]
    rcases List.mem_cons.mp hq with rfl | hq
    · exact qLeB_trans (foldl_minQ_le_init xs (minQ a q)) (minQ_le_right a q)
    · exact ih (minQ a x) q hq

theorem min_quarter_mem {l : List Quarter} {q : Quarter}
    (h : min_quarter l = some q) : q ∈ l := by
  cases l with
  | nil => cases h
  | cons x xs =>
    simp only [min_quarter, Option.some.injEq] at h
    rcases foldl_minQ_mem xs x with h2 | h2
    · rw [← h, h2]; exact List.mem_cons_self x xs
    · rw [← h]; exact List.mem_cons_of_mem x h2

theorem min_quarter_le {l : List Quarter} {q : Quarter}
    (h : min_quarter l = some q) : ∀ q' ∈ l, qLeB q q' = true := by
  cases l with
  | nil => cases h
  | cons x xs =>
    simp only [min_quarter, Option.some.injEq] at h
    intro q' hq'
    rcases List.mem_cons.mp hq' with rfl | hq'
    · rw [← h]; exact foldl_minQ_le_init xs q'
    · rw [← h]; exact foldl_minQ_le xs x q' hq'

theorem min_quarter_isSome {l : List Quarter} (h : l ≠ []) :
    ∃ q, min_quarter l = some q := by
  cases l with
  | nil => exact absurd rfl h
  | cons x xs => exact ⟨xs.foldl minQ x, rfl⟩

theorem laterOf_eq_or (a b : FilingRecord) : laterOf a b = a ∨ laterOf a b = b := by
  unfold laterOf
  split
  · right; rfl
  · left; rfl

theorem laterOf_ge_left (a b : FilingRecord) :
    dateLeB a.filing_date (laterOf a b).filing_date = true := by
  unfold laterOf
  split
  · exact dateLeB_of_dateLtB (by assumption)
  · exact dateLeB_refl _

theorem laterOf_ge_right (a b : FilingRecord) :
    dateLeB b.filing_date (laterOf a b).filing_date = true := by
  unfold laterOf
  split
  · exact dateLeB_refl _
  · exact dateLeB_of_not_dateLtB (by simp_all)

theorem foldl_laterOf_mem (l : List FilingRecord) (a : FilingRecord) :
    l.foldl laterOf a = a ∨ l.foldl laterOf a ∈ l := by
  induction l generalizing a with
  | nil => left; rfl
  | cons x xs ih =>
    simp only [List.foldl_cons]
    rcases ih (laterOf a x) with h | h
    · rcases laterOf_eq_or a x with h2 | h2
      · left; rw [h, h2]
      · right; rw [h, h2]; exact List.mem_cons_self x xs
    · right; exact List.mem_cons_of_mem x h

theorem foldl_laterOf_ge_init (l : List FilingRecord) (a : FilingRecord) :
    dateLeB a.filing_date (l.foldl laterOf a).filing_date = true := by
  induction l generalizing a with
  | nil => exact dateLeB_refl _
  | cons x xs ih =>
    simp only [List.foldl_cons]
    exact dateLeB_trans (laterOf_ge_left a x) (ih (laterOf a x))

theorem foldl_laterOf_ge (l : List FilingRecord) (a : FilingRecord) :
    ∀ r ∈ l, dateLeB r.filing_date (l.foldl laterOf a).filing_date = true := by
  induction l generalizing a with
  | nil => intro r hr; cases hr
  | cons x xs ih =>
    intro r hr
    simp only [List.foldl_cons]
    rcases List.mem_cons.mp hr with rfl | hr
    · exact dateLeB_trans (laterOf_ge_right a r) (foldl_laterOf_ge_init xs (laterOf a r))
    · exact ih (laterOf a x) r hr

theorem latest_filing_mem {l : List FilingRecord} {r : FilingRecord}
    (h : latest_filing l = some r) : r ∈ l := by
  cases l with
  | nil => cases h
  | cons x xs =>
    simp only [latest_filing, Option.some.injEq] at h
    rcases foldl_laterOf_mem xs x with h2 | h2
    · rw [← h, h2]; exact List.mem_cons_self x xs
    · rw [← h]; exact List.mem_cons_of_mem x h2

theorem latest_filing_ge {l : List FilingRecord} {r : FilingRecord}
    (h : latest_filing l = some r) :
    ∀ r' ∈ l, dateLeB r'.filing_date r.filing_date = true := by
  cases l with
  | nil => cases h
  | cons x xs =>
    simp only [latest_filing, Option.some.injEq] at h
    intro r' hr'
    rcases List.mem_cons.mp hr' with rfl | hr'
    · rw [← h]; exact foldl_laterOf_ge_init xs r'
    · rw [← h]; exact foldl_laterOf_ge xs x r' hr'

theorem latest_filing_isSome {l : List FilingRecord} (h : l ≠ []) :
    ∃ r, latest_filing l = some r := by
  cases l with
  | nil => exact absurd rfl h
  | cons x xs => exact ⟨xs.foldl laterOf x, rfl⟩

/-! ### Membership characterizations for the classifier -/

theorem mem_earlier_quarters {history : List FilingRecord} {target q : Quarter} :
    q ∈ earlier_quarters history target ↔
      ∃ r ∈ history, qualifies r = true ∧ resolveFiling r = q
        ∧ qLtB q target = true := by
  simp only [earlier_quarters, qualifying, List.mem_filter, List.mem_map]
  constructor
  · rintro ⟨⟨r, ⟨hr, hq⟩, rfl⟩, hlt⟩
    exact ⟨r, hr, hq, rfl, hlt⟩
  · rintro ⟨r, hr, hq, rfl, hlt⟩
    exact ⟨⟨r, ⟨hr, hq⟩, rfl⟩, hlt⟩

theorem mem_target_filings {history : List FilingRecord} {target : Quarter}
    {r : FilingRecord} :
    r ∈ target_filings history target ↔
      r ∈ history ∧ qualifies r = true ∧ resolveFiling r = target := by
  simp only [target_filings, qualifying, List.mem_filter, qEqB_iff, and_assoc]

theorem earlier_quarters_isEmpty_iff {history : List FilingRecord}
    {target : Quarter} :
    (earlier_quarters history target).isEmpty = true ↔
      ∀ r ∈ history, qualifies r = true →
        qLtB (resolveFiling r) target = false := by
  rw [List.isEmpty_iff, List.eq_nil_iff_forall_not_mem]
  constructor
  · intro h r hr hq
    rw [← Bool.not_eq_true]
    intro hlt
    exact h (resolveFiling r) (mem_earlier_quarters.mpr ⟨r, hr, hq, rfl, hlt⟩)
  · intro h q hq
    obtain ⟨r, hr, hqual, rfl, hlt⟩ := mem_earlier_quarters.mp hq
    rw [h r hr hqual] at hlt
    cases hlt

/-! ### Validator lemmas -/

theorem materialize_some {r : RawRow} {h : Holding}
    (hm : materialize r = some h) :
    is_valid_holding r = true ∧ r.cusip = some h.cusip
      ∧ r.issuer_name = some h.issuer_name
      ∧ toNum r.value_usd = some h.value_usd
      ∧ ∃ s, toNum r.ssh_prnamt = some s ∧ h.ssh_prnamt = ratTrunc s := by
  unfold materialize at hm
  rcases hvalid : is_valid_holding r with _ | _
  · rw [hvalid] at hm
    simp at hm
  rw [hvalid] at hm
  simp only [if_true] at hm
  rcases hc : r.cusip with _ | c <;> rw [hc] at hm
  · simp at hm
  rcases hn : r.issuer_name with _ | n <;> rw [hn] at hm
  · simp at hm
  rcases hval : toNum r.value_usd with _ | v <;> rw [hval] at hm
  · simp at hm
  rcases hs : toNum r.ssh_prnamt with _ | s <;> rw [hs] at hm
  · simp at hm
  simp only [Option.some.injEq] at hm
  subst hm
  exact ⟨rfl, rfl, rfl, rfl, s, rfl, rfl⟩

theorem materialize_invalid {r : RawRow} (h : is_valid_holding r = false) :
    materialize r = Option.none := by
  unfold materialize
  rw [h]
  simp

theorem materialize_uncoercible {r : RawRow}
    (h : toNum r.value_usd = Option.none ∨ toNum r.ssh_prnamt = Option.none) :
    materialize r = Option.none := by
  unfold materialize
  split
  · rcases h with h | h <;>
      · split
        · simp_all
        · rfl
  · rfl

theorem valid_trim_nonempty {r : RawRow} {c n : String}
    (hv : is_valid_holding r = true) (hc : r.cusip = some c)
    (hn : r.issuer_name = some n) :
    trimChars c.data ≠ [] ∧ trimChars n.data ≠ [] := by
  unfold is_valid_holding at hv
  rw [hc, hn] at hv
  simp only [Bool.and_eq_true, Bool.not_eq_true', List.isEmpty_eq_false] at hv
  exact hv

/-! ### Claim theorems -/

/--
C1: for every calendar filing date, the quarter-resolution function of
`SECClient._has_13f_filing_in_quarter` maps filing month m in 1..3 to
quarter 4 of the previous year, 4..6 to quarter 1, 7..9 to quarter 2, and
10..12 to quarter 3 of the filing year.
-/
theorem quarter_resolution_mapping (y : Int) (m : Nat) :
    ((m = 1 ∨ m = 2 ∨ m = 3) → filingQuarter y m = (y - 1, 4)) ∧
    ((m = 4 ∨ m = 5 ∨ m = 6) → filingQuarter y m = (y, 1)) ∧
    ((m = 7 ∨ m = 8 ∨ m = 9) → filingQuarter y m = (y, 2)) ∧
    ((m = 10 ∨ m = 11 ∨ m = 12) → filingQuarter y m = (y, 3)) := by
  refine ⟨?_, ?_, ?_, ?_⟩ <;> rintro (rfl | rfl | rfl) <;> rfl

/-- Witness for C1 at the concrete filing month January 2024. -/
theorem quarter_resolution_mapping_witness : filingQuarter 2024 1 = (2023, 4) :=
  (quarter_resolution_mapping 2024 1).1 (Or.inl rfl)

/--
C2: classification is first-time iff no qualifying entry resolves strictly
earlier than the target quarter; when an earliest qualifying quarter is
reported it is a quarter of some strictly-earlier qualifying entry and a
lower bound of all of them; a non-first-time verdict always reports one;
and an entry resolving exactly to the target quarter never counts as
earlier.
-/
theorem classify_first_time_correct (history : List FilingRecord)
    (target : Quarter) :
    ((classify_filing_history history target).is_first_time = true ↔
      ∀ r ∈ history, qualifies r = true →
        qLtB (resolveFiling r) target = false) ∧
    (∀ q, (classify_filing_history history target).earliest_qualifying_quarter
          = some q →
      (∃ r ∈ history, qualifies r = true ∧ resolveFiling r = q
        ∧ qLtB q target = true) ∧
      ∀ r ∈ history, qualifies r = true →
        qLtB (resolveFiling r) target = true →
          qLeB q (resolveFiling r) = true) ∧
    ((classify_filing_history history target).is_first_time = false →
      ∃ q, (classify_filing_history history target).earliest_qualifying_quarter
            = some q) ∧
    ∀ r ∈ history, resolveFiling r = target →
      qLtB (resolveFiling r) target = false := by
  refine ⟨?_, ?_, ?_, ?_⟩
  · simpa only [classify_filing_history] using earlier_quarters_isEmpty_iff
  · intro q hq
    simp only [classify_filing_history] at hq
    constructor
    · exact mem_earlier_quarters.mp (min_quarter_mem hq)
    · intro r hr hqual hlt
      exact min_quarter_le hq (resolveFiling r)
        (mem_earlier_quarters.mpr ⟨r, hr, hqual, rfl, hlt⟩)
  · intro hfalse
    simp only [classify_filing_history] at hfalse ⊢
    exact min_quarter_isSome (by simpa [List.isEmpty_iff] using hfalse)
  · intro r _ ht
    rw [ht]
    exact qLtB_irrefl target

/--
Witness for C2 at the concrete two-entry history of the repository's
`test_check_first_time_filer_false`: the classifier reports earliest
qualifying quarter 2022Q4, a lower bound for the entry filed 2023-01-15.
-/
theorem classify_first_time_correct_witness :
    (classify_filing_history
        [⟨"13F-HR", ⟨2023, 1, 15⟩, "1234567890"⟩,
         ⟨"13F-HR", ⟨2024, 1, 15⟩, "1234567891"⟩] ⟨2023, 4⟩).is_first_time
      = false ∧
    qLeB ⟨2022, 4⟩
      (resolveFiling ⟨"13F-HR", ⟨2023, 1, 15⟩, "1234567890"⟩) = true :=
  ⟨by decide,
    ((classify_first_time_correct
        [⟨"13F-HR", ⟨2023, 1, 15⟩, "1234567890"⟩,
         ⟨"13F-HR", ⟨2024, 1, 15⟩, "1234567891"⟩] ⟨2023, 4⟩).2.1
      ⟨2022, 4⟩ (by decide)).2
      ⟨"13F-HR", ⟨2023, 1, 15⟩, "1234567890"⟩ (by decide) (by decide)
        (by decide)⟩

/--
C3: a history entry whose form type is not a holdings-disclosure form
(13F-HR or 13F-HR/A) never affects classification — neither target-quarter
selection nor first-time detection.
-/
theorem non_qualifying_forms_excluded (r : FilingRecord)
    (history : List FilingRecord) (target : Quarter)
    (h : qualifies r = false) :
    classify_filing_history (r :: history) target
      = classify_filing_history history target := by
  have hq : qualifying (r :: history) = qualifying history := by
    simp [qualifying, List.filter_cons, h]
  simp only [classify_filing_history, earlier_quarters, target_filings, hq]

/--
Witness for C3 at the history of `test_check_first_time_filer_ignores_13f_nt`:
a 13F-NT notice with an earlier date drops out entirely and the filer is
still first-time.
-/
theorem non_qualifying_forms_excluded_witness :
    classify_filing_history
        [⟨"13F-NT", ⟨2023, 1, 15⟩, "1234567890"⟩,
         ⟨"13F-HR", ⟨2024, 1, 15⟩, "1234567891"⟩] ⟨2023, 4⟩
      = classify_filing_history
          [⟨"13F-HR", ⟨2024, 1, 15⟩, "1234567891"⟩] ⟨2023, 4⟩ ∧
    (classify_filing_history
        [⟨"13F-NT", ⟨2023, 1, 15⟩, "1234567890"⟩,
         ⟨"13F-HR", ⟨2024, 1, 15⟩, "1234567891"⟩] ⟨2023, 4⟩).is_first_time
      = true :=
  ⟨non_qualifying_forms_excluded _ _ _ (by decide), by decide⟩

/--
C4: no row whose cusip or issuer name is absent or empty after trimming
ever appears in the output table; every output holding stems from a
well-formed input row with its identity fields untouched, and ill-formed
rows can be deleted from the input without changing the output.
-/
theorem validator_never_materializes_malformed :
    (∀ rows : List RawRow, ∀ h ∈ clean_rows rows,
      trimChars h.cusip.data ≠ [] ∧ trimChars h.issuer_name.data ≠ [] ∧
      ∃ r ∈ rows, is_valid_holding r = true ∧ r.cusip = some h.cusip
        ∧ r.issuer_name = some h.issuer_name) ∧
    (∀ rows : List RawRow,
      clean_rows rows = clean_rows (rows.filter fun r => is_valid_holding r)) ∧
    (∀ (pre post : List RawRow) (r : RawRow), is_valid_holding r = false →
      clean_rows (pre ++ r :: post) = clean_rows (pre ++ post)) := by
  refine ⟨?_, ?_, ?_⟩
  · intro rows h hmem
    obtain ⟨r, hr, hm⟩ := List.mem_filterMap.mp hmem
    obtain ⟨hvalid, hc, hn, -⟩ := materialize_some hm
    obtain ⟨htc, htn⟩ := valid_trim_nonempty hvalid hc hn
    exact ⟨htc, htn, r, hr, hvalid, hc, hn⟩
  · intro rows
    induction rows with
    | nil => rfl
    | cons r rs ih =>
      rcases hv : is_valid_holding r with _ | _
      · simp only [clean_rows, List.filter_cons, hv, List.filterMap_cons_none
          (materialize_invalid hv), Bool.false_eq_true, if_false]
        exact ih
      · simp only [clean_rows, List.filter_cons, hv, if_true, List.filterMap_cons]
        simp only [clean_rows] at ih
        rw [ih]
  · intro pre post r hv
    simp only [clean_rows, List.filterMap_append,
      List.filterMap_cons_none (materialize_invalid hv)]

/--
Witness for C4 at the invalid row of `test_clean_dataframe` (empty cusip
and issuer name): deleting it from the input leaves the output unchanged.
-/
theorem validator_never_materializes_malformed_witness :
    clean_rows
        [⟨some "037833100", some "Apple Inc.", some "Common Stock",
          .str "1000000", .str "1000", Option.none, Option.none, some "SOLE",
          Option.none, .int 1000, .int 0, .int 0⟩,
         ⟨some "", some "", some "Bond", .str "invalid", .str "invalid",
          Option.none, Option.none, Option.none, Option.none, .int 0, .int 0,
          .int 0⟩]
      = clean_rows
          [⟨some "037833100", some "Apple Inc.", some "Common Stock",
            .str "1000000", .str "1000", Option.none, Option.none, some "SOLE",
            Option.none, .int 1000, .int 0, .int 0⟩] :=
  validator_never_materializes_malformed.2.2
    [⟨some "037833100", some "Apple Inc.", some "Common Stock",
      .str "1000000", .str "1000", Option.none, Option.none, some "SOLE",
      Option.none, .int 1000, .int 0, .int 0⟩] []
    ⟨some "", some "", some "Bond", .str "invalid", .str "invalid",
      Option.none, Option.none, Option.none, Option.none, .int 0, .int 0,
      .int 0⟩ (by decide)

/--
C6: the validator coerces `value_usd` and `shares_or_principal_amount` to
numbers; a row on which either coercion fails is silently dropped — it is
never defaulted and never an error.
-/
theorem numeric_coercion_drops_row :
    (∀ (r : RawRow) (h : Holding), materialize r = some h →
      ∃ v s, toNum r.value_usd = some v ∧ toNum r.ssh_prnamt = some s ∧
        h.value_usd = v ∧ h.ssh_prnamt = ratTrunc s) ∧
    (∀ r : RawRow,
      toNum r.value_usd = Option.none ∨ toNum r.ssh_prnamt = Option.none →
      materialize r = Option.none) ∧
    (∀ (pre post : List RawRow) (r : RawRow),
      toNum r.value_usd = Option.none ∨ toNum r.ssh_prnamt = Option.none →
      clean_rows (pre ++ r :: post) = clean_rows (pre ++ post)) := by
  refine ⟨?_, ?_, ?_⟩
  · intro r h hm
    obtain ⟨-, -, -, hv, s, hs, hsh⟩ := materialize_some hm
    exact ⟨h.value_usd, s, hv, hs, rfl, hsh⟩
  · intro r h
    exact materialize_uncoercible h
  · intro pre post r h
    simp only [clean_rows, List.filterMap_append,
      List.filterMap_cons_none (materialize_uncoercible h)]

/--
Witness for C6 at a row of `test_clean_dataframe` whose numeric cells hold
the string "invalid": the row is dropped from the output.
-/
theorem numeric_coercion_drops_row_witness :
    clean_rows
        [⟨some "invalid_cusip", some "Valid Company", some "Stock",
          .str "invalid", .str "invalid", Option.none, Option.none,
          Option.none, Option.none, .int 0, .int 0, .int 0⟩]
      = clean_rows [] ∧ clean_rows ([] : List RawRow) = [] :=
  ⟨numeric_coercion_drops_row.2.2 [] []
    ⟨some "invalid_cusip", some "Valid Company", some "Stock",
      .str "invalid", .str "invalid", Option.none, Option.none,
      Option.none, Option.none, .int 0, .int 0, .int 0⟩ (Or.inl (by decide)),
    rfl⟩

/--
C5: when neither parsing strategy can make sense of a document (including
text hinted as XML whose structured parse fails), the parse returns the
empty holdings table — no fault reaches the caller — and the derived
aggregate statistics are 0 and 0.0.
-/
theorem malformed_document_yields_empty
    (xmlS textS : String → Option (List RawRow)) (text hint : String)
    (hx : xmlS text = Option.none) (ht : textS text = Option.none) :
    parse_information_table xmlS textS text hint = [] ∧
    get_holdings_count (parse_information_table xmlS textS text hint) = 0 ∧
    get_total_value (parse_information_table xmlS textS text hint) = 0 := by
  have key : parse_information_table xmlS textS text hint = [] := by
    unfold parse_information_table
    by_cases hxml : hint = "xml" ∨ detect_file_type text = "xml" <;>
      simp [hxml, hx, ht]
  refine ⟨key, ?_, ?_⟩ <;> rw [key] <;> rfl

/--
Witness for C5 at the malformed document of `test_parse_xml_invalid`, with
strategies that fail on every input.
-/
theorem malformed_document_yields_empty_witness :
    parse_information_table (fun _ => Option.none) (fun _ => Option.none)
        "<invalid>xml content" "xml" = [] ∧
    get_holdings_count (parse_information_table (fun _ => Option.none)
        (fun _ => Option.none) "<invalid>xml content" "xml") = 0 ∧
    get_total_value (parse_information_table (fun _ => Option.none)
        (fun _ => Option.none) "<invalid>xml content" "xml") = 0 :=
  malformed_document_yields_empty (fun _ => Option.none) (fun _ => Option.none)
    "<invalid>xml content" "xml" rfl rfl

/--
C7 (amended): the selected filing, when present, is a target-quarter
qualifying entry whose filing date is maximal among them; it is present
whenever such entries exist and absent when none do; and when the filer has
no qualifying entries at all the selected filing is absent and the verdict
is vacuously first-time.  (The unamended claim let `is_first_time` be true
whenever no qualifying entry resolves to the target quarter; see the
counterexample.)
-/
theorem selected_filing_latest (history : List FilingRecord) (target : Quarter) :
    (∀ r, (classify_filing_history history target).selected_filing = some r →
      r ∈ target_filings history target ∧
      ∀ r' ∈ target_filings history target,
        dateLeB r'.filing_date r.filing_date = true) ∧
    (target_filings history target ≠ [] →
      ∃ r, (classify_filing_history history target).selected_filing = some r) ∧
    (target_filings history target = [] →
      (classify_filing_history history target).selected_filing = Option.none) ∧
    (qualifying history = [] →
      (classify_filing_history history target).selected_filing = Option.none ∧
      (classify_filing_history history target).is_first_time = true) := by
  refine ⟨?_, ?_, ?_, ?_⟩
  · intro r hr
    simp only [classify_filing_history] at hr
    exact ⟨latest_filing_mem hr, latest_filing_ge hr⟩
  · intro hne
    simp only [classify_filing_history]
    exact latest_filing_isSome hne
  · intro hnil
    simp only [classify_filing_history, hnil]
    rfl
  · intro hq
    have h1 : target_filings history target = [] := by
      simp [target_filings, hq]
    have h2 : earlier_quarters history target = [] := by
      simp [earlier_quarters, hq]
    simp [classify_filing_history, h1, h2, latest_filing]

/--
Witness for C7 at the three filings of `test_get_latest_filing`: the entry
filed 2024-02-15 is selected and belongs to the target-quarter filings.
-/
theorem selected_filing_latest_witness :
    (⟨"13F-HR", ⟨2024, 2, 15⟩, "1234567891"⟩ : FilingRecord) ∈
      target_filings
        [⟨"13F-HR", ⟨2024, 1, 15⟩, "1234567890"⟩,
         ⟨"13F-HR", ⟨2024, 2, 15⟩, "1234567891"⟩,
         ⟨"13F-HR", ⟨2024, 1, 10⟩, "1234567892"⟩] ⟨2023, 4⟩ :=
  ((selected_filing_latest
      [⟨"13F-HR", ⟨2024, 1, 15⟩, "1234567890"⟩,
       ⟨"13F-HR", ⟨2024, 2, 15⟩, "1234567891"⟩,
       ⟨"13F-HR", ⟨2024, 1, 10⟩, "1234567892"⟩] ⟨2023, 4⟩).1
    ⟨"13F-HR", ⟨2024, 2, 15⟩, "1234567891"⟩ (by decide)).1

/--
Counterexample to C7 as stated: a history whose single qualifying entry
resolves strictly earlier than the target quarter has no entry at the
target quarter — the selected filing is absent — yet `is_first_time` is
false, not vacuously true.
-/
theorem selected_filing_vacuous_counterexample :
    target_filings [⟨"13F-HR", ⟨2023, 1, 15⟩, "1234567890"⟩] ⟨2023, 4⟩ = []
      ∧ (classify_filing_history
          [⟨"13F-HR", ⟨2023, 1, 15⟩, "1234567890"⟩] ⟨2023, 4⟩).selected_filing
        = Option.none
      ∧ (classify_filing_history
          [⟨"13F-HR", ⟨2023, 1, 15⟩, "1234567890"⟩] ⟨2023, 4⟩).is_first_time
        = false := by
  decide

/-- The digit character of `d ≤ 9` has codepoint `48 + d`. -/
theorem digitChar_prop (d : Nat) (hd : d ≤ 9) :
    48 ≤ (digitChar d).toNat ∧ (digitChar d).toNat ≤ 57
      ∧ (digitChar d).toNat = 48 + d := by
  interval_cases d <;> refine ⟨by decide, by decide, by decide⟩

/--
C8: parsing a quarter string succeeds exactly on four year digits, the
literal `Q`, and one quarter digit in 1..4 (it errors on quarter digits 0
and 5, a missing quarter digit, a missing year, and the empty string, and
never silently defaults), and every well-formed `YYYYQn` parses back to
`(YYYY, n)`.
-/
theorem parse_quarter_spec :
    (∀ s : String,
      (∃ y n, parse_quarter s = .ok (y, n)) ↔ spec_quarter_grammar s) ∧
    (∀ y n : Nat, y ≤ 9999 → 1 ≤ n → n ≤ 4 →
      parse_quarter (format_quarter y n) = .ok (y, n)) ∧
    exceptIsOk (parse_quarter "2024Q5") = false ∧
    exceptIsOk (parse_quarter "2024Q0") = false ∧
    exceptIsOk (parse_quarter "2024Q") = false ∧
    exceptIsOk (parse_quarter "Q4") = false ∧
    exceptIsOk (parse_quarter "") = false ∧
    parse_quarter "2024Q4" = .ok (2024, 4) := by
  refine ⟨?_, ?_, by decide, by decide, by decide, by decide, by decide, rfl⟩
  · intro s
    obtain ⟨l⟩ := s
    rcases l with _ | ⟨c1, _ | ⟨c2, _ | ⟨c3, _ | ⟨c4, _ | ⟨c5, _ | ⟨c6,
      _ | ⟨c7, rest⟩⟩⟩⟩⟩⟩⟩
    all_goals try (simp [parse_quarter, spec_quarter_grammar]; done)
    simp only [parse_quarter, spec_quarter_grammar]
    by_cases hP : (48 ≤ c1.toNat ∧ c1.toNat ≤ 57)
        ∧ (48 ≤ c2.toNat ∧ c2.toNat ≤ 57) ∧ (48 ≤ c3.toNat ∧ c3.toNat ≤ 57)
        ∧ (48 ≤ c4.toNat ∧ c4.toNat ≤ 57) ∧ c5 = 'Q'
        ∧ (49 ≤ c6.toNat ∧ c6.toNat ≤ 52)
    · obtain ⟨h1, h2, h3, h4, h5, h6⟩ := hP
      subst h5
      apply iff_of_true
      · exact ⟨_, _, if_pos ⟨h1, h2, h3, h4, rfl, h6⟩⟩
      · exact ⟨c1, c2, c3, c4, c6, rfl, h1, h2, h3, h4, h6⟩
    · apply iff_of_false
      · rintro ⟨y, n, hok⟩
        rw [if_neg hP] at hok
        cases hok
      · rintro ⟨a1, a2, a3, a4, a6, heq, hd1, hd2, hd3, hd4, hd6⟩
        simp at heq
        rcases heq with ⟨rfl, rfl, rfl, rfl, rfl, rfl⟩
        exact hP ⟨hd1, hd2, hd3, hd4, rfl, hd6⟩
  · intro y n hy hn1 hn4
    have h1 := digitChar_prop (y / 1000 % 10) (by omega)
    have h2 := digitChar_prop (y / 100 % 10) (by omega)
    have h3 := digitChar_prop (y / 10 % 10) (by omega)
    have h4 := digitChar_prop (y % 10) (by omega)
    have h6 := digitChar_prop n (by omega)
    simp only [format_quarter, parse_quarter]
    rw [if_pos]
    · simp only [Except.ok.injEq, Prod.mk.injEq, charToDigit]
      refine ⟨?_, ?_⟩ <;> omega
    · refine ⟨⟨h1.1, h1.2.1⟩, ⟨h2.1, h2.2.1⟩, ⟨h3.1, h3.2.1⟩,
        ⟨h4.1, h4.2.1⟩, trivial, ?_, ?_⟩ <;> omega

/-- Witness for C8: the round trip at 2024Q4 as in the repository's tests. -/
theorem parse_quarter_spec_witness :
    parse_quarter (format_quarter 2024 4) = .ok (2024, 4) :=
  parse_quarter_spec.2.1 2024 4 (by decide) (by decide) (by decide)

/--
C9: `distinct_holdings_count` is the number of unique cusip values (rows
sharing a cusip collapse to one) while `total_value_usd` sums `value_usd`
over all rows with duplicates counted; the empty table yields 0 and 0.0.
-/
theorem holdings_stats_spec :
    (∀ t : List Holding,
      get_holdings_count t = (t.map fun h => h.cusip).toFinset.card ∧
      get_total_value t = (t.map fun h => h.value_usd).sum) ∧
    get_holdings_count [] = 0 ∧ get_total_value [] = 0 ∧
    get_holdings_count
      [⟨"A", "i1", "", 0, 0, "", Option.none, "", Option.none, 0, 0, 0⟩,
       ⟨"B", "i2", "", 0, 0, "", Option.none, "", Option.none, 0, 0, 0⟩,
       ⟨"A", "i1", "", 0, 0, "", Option.none, "", Option.none, 0, 0, 0⟩] = 2 ∧
    get_total_value
      [⟨"c1", "i1", "", (1000000 : ℚ), 0, "", Option.none, "", Option.none,
        0, 0, 0⟩,
       ⟨"c2", "i2", "", (500000 : ℚ), 0, "", Option.none, "", Option.none,
        0, 0, 0⟩] = (1500000 : ℚ) := by
  refine ⟨?_, rfl, rfl, by decide, by norm_num [get_total_value]⟩
  intro t
  exact ⟨(List.card_toFinset _).symm, rfl⟩

/--
C10: `safe_int` and `safe_float` are total — for every input value they
return the converted number when coercion succeeds (`safe_int` truncating
fractional values) and otherwise the caller-supplied default, 0 and 0.0 in
the repository's default-free calls — exercised at every vector of
`TestSafeConversion`.
-/
theorem safe_conversion_total :
    (∀ (v : PyVal) (d : ℚ),
      (∃ q, toNum v = some q ∧ safe_float v d = q) ∨
      (toNum v = Option.none ∧ safe_float v d = d)) ∧
    (∀ (v : PyVal) (d : Int),
      (∃ q, toNum v = some q ∧ safe_int v d = ratTrunc q) ∨
      (toNum v = Option.none ∧ safe_int v d = d)) ∧
    safe_int (.str "123") 0 = 123 ∧ safe_int (.str "123.45") 0 = 123 ∧
    safe_int (.rat (mkRat 2469 20)) 0 = 123 ∧ safe_int .none 0 = 0 ∧
    safe_int (.str "") 0 = 0 ∧ safe_int (.str "abc") 0 = 0 ∧
    safe_int (.str "123") 999 = 123 ∧ safe_int (.str "abc") 999 = 999 ∧
    safe_float (.str "123.45") 0 = mkRat 2469 20 ∧
    safe_float (.str "123") 0 = mkRat 123 1 ∧
    safe_float (.int 123) 0 = mkRat 123 1 ∧
    safe_float .none 0 = 0 ∧ safe_float (.str "") 0 = 0 ∧
    safe_float (.str "abc") 0 = 0 ∧
    safe_float (.str "abc") (mkRat 99999 100) = mkRat 99999 100 := by
  refine ⟨?_, ?_, by decide, by decide, by decide, by decide, by decide,
    by decide, by decide, by decide, by decide, by decide, by decide, rfl,
    rfl, rfl, rfl⟩
  · intro v d
    rcases h : toNum v with _ | q
    · exact Or.inr ⟨rfl, by simp [safe_float, h]⟩
    · exact Or.inl ⟨q, rfl, by simp [safe_float, h]⟩
  · intro v d
    rcases h : toNum v with _ | q
    · exact Or.inr ⟨rfl, by simp [safe_int, h]⟩
    · exact Or.inl ⟨q, rfl, by simp [safe_int, h]⟩

end ThirteenF
